/-
  Verification development for the chainforge-backend deployment core.

  Shallow embedding of:
  * the artifact-key resolver (src/unnamed/part_000 `resolveERC20ArtifactKey`,
    src/index.js `normalizeModules` / `artifactKeyForToken`),
  * the Etherscan verification orchestrator (src/unnamed/part_001
    `isRetryable` / `verifyOnEtherscan` submission loop),
  * the deployment executor (src/utils/runHardhatDeploy.js) abstracted over
    the filesystem sentinel and the exit status of the spawned toolchain,
  * the in-process deployment queue (src/utils/deployQueue.js) as a
    small-step machine over job tables, faithful to JavaScript evaluation:
    an async function body runs synchronously up to its first await, so
    `createJob`'s call to `this._drain()` starts the job before returning.

  JavaScript strings are modelled as Lean `String`; `trim`, `toLowerCase`,
  `includes` and default `Array.sort` are re-implemented on `List Char` so
  that every definition evaluates inside the kernel (ASCII suffices for the
  module names and messages this repository manipulates).  Timestamps
  (`new Date()` / `Date.now()`) are modelled by a logical clock that is
  non-decreasing across events, which is the only property the code needs.
-/
import Mathlib

/-! ## JavaScript string primitives, re-implemented kernel-reducibly -/

/-- ASCII whitespace, the fragment of JS `String.prototype.trim` relevant here. -/
def isWsp (c : Char) : Bool := c = ' ' || c = '\t' || c = '\n' || c = '\r'

/-- Trim whitespace from both ends of a character list. -/
def trimChars (l : List Char) : List Char :=
  ((l.dropWhile isWsp).reverse.dropWhile isWsp).reverse

/-- JS `s.trim()`. -/
def jsTrim (s : String) : String := String.mk (trimChars s.data)

/-- Lower-case one ASCII character, the fragment of JS `toLowerCase` used here. -/
def lowerChar (c : Char) : Char :=
  if 65 ≤ c.toNat ∧ c.toNat ≤ 90 then Char.ofNat (c.toNat + 32) else c

/-- JS `s.toLowerCase()`. -/
def jsToLower (s : String) : String := String.mk (s.data.map lowerChar)

/-- Lexicographic comparison of character lists by code unit, as JS
`Array.prototype.sort`'s default comparator orders strings. -/
def lexLe : List Char → List Char → Bool
  | [], _ => true
  | _ :: _, [] => false
  | a :: as, b :: bs =>
    if a = b then lexLe as bs
    else decide (a.toNat < b.toNat)

/-- JS default string order, as a binary relation on `String`. -/
def strLe (a b : String) : Prop := lexLe a.data b.data = true

instance strLeDec : DecidableRel strLe := fun a b => by
  unfold strLe
  infer_instance

/-- JS `arr.sort()` on an array of strings: the `strLe`-sorted permutation.
Insertion sort is extensionally the unique sorted permutation, which is all
the callers depend on. -/
def sortStrs (l : List String) : List String := List.insertionSort strLe l

/-- JS `arr.join(sep)`. -/
def joinSep (sep : String) : List String → String
  | [] => ""
  | [a] => a
  | a :: rest => a ++ sep ++ joinSep sep rest

/-- Prefix test on character lists. -/
def hasPfx : List Char → List Char → Bool
  | [], _ => true
  | _ :: _, [] => false
  | a :: as, b :: bs => a = b && hasPfx as bs

/-- Substring occurrence test on character lists. -/
def hasSub (pat : List Char) : List Char → Bool
  | [] => hasPfx pat []
  | l@(_ :: rest) => hasPfx pat l || hasSub pat rest

/-- JS `s.includes(pat)`. -/
def jsIncludes (s pat : String) : Bool := hasSub pat.data s.data

/-! ## Artifact resolver (src/unnamed/part_000 and src/index.js) -/

/-- From src/unnamed/part_000: `normalize(modules)` =
`modules.map(String).map(m => m.trim()).filter(Boolean).sort()`.
Note: no lower-casing, no deduplication. -/
def normalizeMods (modules : List String) : List String :=
  sortStrs ((modules.map jsTrim).filter (fun m => m ≠ ""))

/-- From src/unnamed/part_000: `resolveERC20ArtifactKey(modules)`. -/
def resolveERC20ArtifactKey (modules : List String) : String :=
  match normalizeMods modules with
  | [] => "ERC20__base"
  | [m] => "ERC20__" ++ m
  | ms => "ERC20__" ++ joinSep "_" ms

/-- From src/index.js: `normalizeModules(modules)` =
`modules.map(m => String(m).trim().toLowerCase()).filter(Boolean)`.
Note: no deduplication. -/
def normalizeModules (modules : List String) : List String :=
  (modules.map (fun m => jsToLower (jsTrim m))).filter (fun m => m ≠ "")

/-- From src/index.js: `artifactKeyForToken({type, modules})` =
`` `${type}__${mods.length ? mods.join("_") : "base"}` `` with
`mods = normalizeModules(modules).sort()`. -/
def artifactKeyForToken (ty : String) (modules : List String) : String :=
  let mods := sortStrs (normalizeModules modules)
  let suffix := if mods = [] then "base" else joinSep "_" mods
  ty ++ "__" ++ suffix

/-- Modelled from the claim C2's words, for refinement comparison only: the
set a module list denotes once order, casing, surrounding whitespace and
duplicates are ignored (trim, lower-case, drop empties, sort, deduplicate). -/
def specModuleSetC2 (modules : List String) : List String :=
  (sortStrs ((modules.map (fun m => jsToLower (jsTrim m))).filter (fun m => m ≠ ""))).dedup

/-! ## Etherscan verification orchestrator (src/unnamed/part_001) -/

/-- From src/unnamed/part_001: `isRetryable(msg)`; case-insensitive substring
match against the transient-failure patterns.  The first pattern is
"unable to locate contractcode" with no space, exactly as in the source. -/
def isRetryable (msg : String) : Bool :=
  let m := jsToLower msg
  jsIncludes m "unable to locate contractcode" ||
  jsIncludes m "rate limit" ||
  jsIncludes m "temporarily" ||
  jsIncludes m "timeout" ||
  jsIncludes m "try again"

/-- Modelled from the claim C9's words, for refinement comparison only: the
transient patterns the claim lists, quoted literally. -/
def specRetryablePatterns : List String :=
  ["rate limiting", "indexing delay", "timeout", "try again",
   "unable to locate contract code"]

/-- Modelled from the claim C9's words: retryable iff the lower-cased message
contains one of `specRetryablePatterns`. -/
def specRetryableC9 (msg : String) : Bool :=
  specRetryablePatterns.any (fun p => jsIncludes (jsToLower msg) p)

/-- Result record of one `submitVerification` call, as consumed by
`verifyOnEtherscan`: `{ ok, guid?, alreadyVerified?, retryable?, error? }`. -/
structure SubmitRes where
  ok : Bool := false
  guid : Option String := none
  alreadyVerified : Bool := false
  retryable : Bool := false
  error : String := ""
  deriving DecidableEq, Repr

/-- Outcome of the submission phase of `verifyOnEtherscan`: either a terminal
`{success, status, message}` record or entry into the polling loop. -/
inductive SubmitPhaseOut where
  | done (success : Bool) (status : String) (message : String)
  | poll (guid : Option String)
  deriving DecidableEq, Repr

/-- The `for (let i = 0; i < 5; i++)` submission loop of `verifyOnEtherscan`,
with `subs n` the outcome of the n-th `submitVerification` call (0-based).
Returns the last submission result, the number of attempts made, and the
list of `sleep` durations in milliseconds, in order.  `rem` is the number of
loop iterations still permitted; the loop body at index `i`:
breaks on `ok`; returns on non-retryable; otherwise sleeps `10000 * (i+1)`
(also after the final iteration, as in the source) and continues. -/
def submitAttempts (subs : Nat → SubmitRes) (i : Nat) : Nat → SubmitRes × Nat × List Nat
  | 0 => (subs i, 0, [])
  | rem + 1 =>
    let s := subs i
    if s.ok then (s, 1, [])
    else if !s.retryable then (s, 1, [])
    else
      match rem with
      | 0 => (s, 1, [10000 * (i + 1)])
      | r + 1 =>
        let rest := submitAttempts subs (i + 1) (r + 1)
        (rest.1, rest.2.1 + 1, 10000 * (i + 1) :: rest.2.2)

/-- The submission phase of `verifyOnEtherscan`: run the 5-attempt loop, then
the post-loop classification, in source order: a non-ok non-retryable result
returned from inside the loop is `status="failed"`; `alreadyVerified` is
`status="verified"`; a non-ok result after exhausting the loop is
`status="retryable"`; otherwise polling starts with the accepted guid. -/
def verifySubmitPhase (subs : Nat → SubmitRes) : SubmitPhaseOut × Nat × List Nat :=
  let r := submitAttempts subs 0 5
  let s := r.1
  if !s.ok && !s.retryable then (.done false "failed" s.error, r.2.1, r.2.2)
  else if s.alreadyVerified then (.done true "verified" "Already verified", r.2.1, r.2.2)
  else if !s.ok then (.done false "retryable" s.error, r.2.1, r.2.2)
  else (.poll s.guid, r.2.1, r.2.2)

/-! ## Deployment executor (src/utils/runHardhatDeploy.js) -/

/-- The JSON object in the sentinel file `deploy-result.json`, as read by the
executor (`address`, `txHash`, `deployerAddress`, `network`). -/
structure DeployJson where
  address : String
  txHash : Option String := none
  deployerAddress : Option String := none
  network : Option String := none
  deriving DecidableEq, Repr

/-- The executor's normalized return value. -/
structure DeployOutcome where
  address : String
  txHash : Option String
  deployerAddress : Option String
  network : String
  verified : Bool
  deriving DecidableEq, Repr

/-- JS `x || null` on a possibly-missing string field (empty string is falsy). -/
def jsOrNull (o : Option String) : Option String :=
  match o with
  | some s => if s = "" then none else some s
  | none => none

/-- JS `x || d` on a possibly-missing string field (empty string is falsy). -/
def jsOrDefault (o : Option String) (d : String) : String :=
  match o with
  | some s => if s = "" then d else s
  | none => d

/-- The sentinel file's state once the toolchain has run: the toolchain's own
write wins, otherwise whatever file already existed remains.  The executor in
src/utils/runHardhatDeploy.js performs no clearing or validation of this path
before spawning (it only cleans the mirrored contracts directory). -/
def sentinelAfter (toolWrites pre : Option DeployJson) : Option DeployJson :=
  match toolWrites with
  | some j => some j
  | none => pre

/-- src/utils/runHardhatDeploy.js, abstracted over the world: `pre` is the
sentinel file's content before the call (from an earlier run), `toolWrites`
what the spawned toolchain writes to it, `execResult` the toolchain's exit
(`.error` = spawn failure / non-zero exit / timeout, carrying the aggregated
diagnostics; `.ok output` = exit 0 with captured stdout), and `verifyOk`
whether the follow-up `hardhat verify` child process exits 0.  Returns the
call's result together with the sentinel file's state after the call. -/
def runHardhatDeployModel (contractFile contractName network : String)
    (pre toolWrites : Option DeployJson) (execResult : Except String String)
    (verifyOk : Bool) : Except String DeployOutcome × Option DeployJson :=
  if contractFile = "" ∨ contractName = "" then
    (.error "Missing required deployment parameters.", pre)
  else
    let fileAfter := sentinelAfter toolWrites pre
    match execResult with
    | .error e => (.error ("Hardhat deployment failed:\n" ++ e), fileAfter)
    | .ok output =>
      match fileAfter with
      | none =>
        (.error ("Deployment output file not found.\nHardhat output:\n" ++ output), none)
      | some dj =>
        (.ok { address := dj.address
               txHash := jsOrNull dj.txHash
               deployerAddress := jsOrNull dj.deployerAddress
               network := jsOrDefault dj.network network
               verified := verifyOk }, none)

/-! ## Deployment queue (src/utils/deployQueue.js) -/

/-- Job lifecycle states. -/
inductive JStatus where
  | queued
  | running
  | succeeded
  | failed
  deriving DecidableEq, Repr

/-- Behaviour of a stored work function when invoked on its input:
`pending` returns a promise settled by a later event (a synchronous
non-promise return also resumes the awaiting drain only on a microtask, so
it is the same shape); `throws m` raises synchronously before the first
await, so the catch block runs inside the same drain call. -/
inductive HBehavior where
  | pending
  | throws (msg : String)
  deriving DecidableEq, Repr

/-- One job record, as stored in `this.jobs`. -/
structure Job where
  status : JStatus
  createdAt : Nat
  startedAt : Option Nat := none
  finishedAt : Option Nat := none
  handler : HBehavior
  input : String := ""
  result : Option String := none
  error : Option String := none
  deriving DecidableEq, Repr

/-- Does a job record currently have status `running`? -/
def isRunningJob (j : Job) : Bool :=
  match j.status with
  | .running => true
  | _ => false

/-- The queue singleton's state: job ids are positions in `jobs` (creation
order), `queue` holds ids of queued jobs in arrival order, `running` is the
in-flight counter, `clock` the logical time. -/
structure QState where
  concurrency : Nat
  running : Nat
  queue : List Nat
  jobs : List Job
  clock : Nat
  deriving DecidableEq, Repr

/-- `new DeployQueue({concurrency})` with the constructor's
`Math.max(1, Number(concurrency) || 1)` clamp. -/
def mkDeployQueue (c : Nat) : QState :=
  { concurrency := max 1 c, running := 0, queue := [], jobs := [], clock := 0 }

/-- The exported singleton `new DeployQueue({ concurrency: 1 })`. -/
def initState : QState := mkDeployQueue 1

/-- JS `err?.message || "Unknown error"`. -/
def jsErrMsg (m : String) : String := if m = "" then "Unknown error" else m

/-- The tail of `_drain` from the first settlement of `await job.handler(...)`:
record result or error, mark the terminal status, stamp `finishedAt`,
decrement `running` (the `setImmediate(() => this._drain())` is a separate
later `drain` event). -/
def completeJob (s : QState) (i : Nat) (out : Except String String) : QState :=
  match s.jobs[i]? with
  | none => s
  | some j =>
    let j' :=
      match out with
      | .ok v => { j with status := .succeeded, result := some v, finishedAt := some s.clock }
      | .error m => { j with status := .failed, error := some (jsErrMsg m), finishedAt := some s.clock }
    { s with jobs := s.jobs.set i j', clock := s.clock + 1, running := s.running - 1 }

/-- The part of `_drain()` that dequeues the head job `j` (at id `i`, with
`rest` the remaining queue), marks it `running` and stamps `startedAt`. -/
def startJob (s : QState) (i : Nat) (rest : List Nat) (j : Job) : QState :=
  { s with queue := rest, running := s.running + 1, jobs := s.jobs.set i { j with status := .running, startedAt := some s.clock }, clock := s.clock + 1 }

/-- The synchronous prefix of `_drain()`: return if at capacity, shift the
queue, mark the job `running`, stamp `startedAt`, invoke the handler.  A
synchronously-throwing handler is caught by the try/catch before the first
await, so its whole completion happens inside this same call; a pending
handler leaves the job `running` until a later `settle` event. -/
def drainStep (s : QState) : QState :=
  if s.running ≥ s.concurrency then s
  else
    match s.queue with
    | [] => s
    | i :: rest =>
      match s.jobs[i]? with
      | none => { s with queue := rest }
      | some j =>
        match j.handler with
        | .pending => startJob s i rest j
        | .throws m => completeJob (startJob s i rest j) i (.error m)

/-- The body of `createJob({handler, input})` up to the `this._drain()` call:
build the record with `status: "queued"`, store it, push its id. -/
def appendJob (s : QState) (h : HBehavior) (input : String) : QState :=
  { s with jobs := s.jobs ++ [{ status := .queued, createdAt := s.clock, handler := h, input := input }], queue := s.queue ++ [s.jobs.length], clock := s.clock + 1 }

/-- `createJob({handler, input})` after the handler check: build the record
with `status: "queued"`, store it, push its id, and call `this._drain()` —
synchronously, exactly as the source does. -/
def createJobStep (s : QState) (h : HBehavior) (input : String) : QState :=
  drainStep (appendJob s h input)

/-- `createJob({handler, input})`: throws unless the handler is a function
(`none` models a non-invokable handler); otherwise returns the new state and
the created job's id — the returned JS object is a live reference, so its
observed status is the one in the post-state. -/
def createJob (s : QState) (h : Option HBehavior) (input : String) :
    Except String (QState × Nat) :=
  match h with
  | none => .error "Job handler must be a function"
  | some hb => .ok (createJobStep s hb input, s.jobs.length)

/-- Settlement of a pending handler's promise: the awaiting `_drain`
continuation runs, completing the job, provided the job is still `running`. -/
def settleStep (s : QState) (i : Nat) (out : Except String String) : QState :=
  match s.jobs[i]? with
  | none => s
  | some j => if j.status = .running then completeJob s i out else s

/-- Externally visible events of the queue machine: job creation (with a
valid handler), settlement of a running job's promise, and a scheduled
`_drain` macrotask firing. -/
inductive QEvent where
  | create (h : HBehavior) (input : String)
  | settle (i : Nat) (out : Except String String)
  | drain

/-- One event's effect on the queue state. -/
def stepEvent (s : QState) : QEvent → QState
  | .create h input => createJobStep s h input
  | .settle i out => settleStep s i out
  | .drain => drainStep s

/-- Run a sequence of events against the exported singleton queue. -/
def runEvents (evs : List QEvent) : QState :=
  evs.foldl stepEvent initState

/-- Status of the job returned by `createJob` on the idle singleton queue
with a pending (asynchronous) handler, observed at the moment `createJob`
returns. -/
def c3Status : Option JStatus :=
  match createJob initState (some .pending) "in" with
  | .ok (s, i) => (s.jobs[i]?).map Job.status
  | .error _ => none

/-- Demo trace for C4: job 0 runs and succeeds, jobs 1 (throwing) and 2
(pending) arrive while it is in flight. -/
def c4DemoEvs : List QEvent :=
  [.create .pending "a", .create (.throws "boom") "b", .create .pending "c",
   .settle 0 (.ok "done")]

/-- Demo trace for C1: two jobs created back to back; the first settles and
the scheduled drain starts the second. -/
def c1DemoEvs : List QEvent :=
  [.create .pending "a", .create .pending "b", .settle 0 (.ok "r"), .drain]

/-! ## waitForJob (src/utils/deployQueue.js) -/

/-- The fields of a job that `waitForJob`'s polling closure reads. -/
structure WJob where
  status : JStatus
  error : Option String := none
  deriving DecidableEq, Repr

/-- Outcome of `waitForJob`: resolution, or one of its three rejections.
`spun` marks polling-fuel exhaustion of the model and is never reached with
adequate fuel. -/
inductive WaitOutcome where
  | notFound
  | resolved (j : WJob)
  | failedMsg (m : String)
  | timedOut
  | spun
  deriving DecidableEq, Repr

/-- JS `job.error?.message || "Deployment failed"`. -/
def waitErrMsg (o : Option String) : String :=
  match o with
  | some m => if m = "" then "Deployment failed" else m
  | none => "Deployment failed"

/-- The `tick` closure of `waitForJob`, with `lookup t` the job snapshot at
time `t`, checked in source order: missing job, succeeded, failed, timeout
(`Date.now() - startedAt > timeoutMs`), else re-poll after `pollMs`.
`waitForJob` itself never writes to the job table: the job is left in
whatever state it is in. -/
def waitTick (lookup : Nat → Option WJob) (start timeoutMs pollMs : Nat) :
    Nat → Nat → WaitOutcome
  | 0, _ => .spun
  | fuel + 1, now =>
    match lookup now with
    | none => .notFound
    | some j =>
      if j.status = .succeeded then .resolved j
      else if j.status = .failed then .failedMsg (waitErrMsg j.error)
      else if now - start > timeoutMs then .timedOut
      else waitTick lookup start timeoutMs pollMs fuel (now + pollMs)

/-- `waitForJob(jobId, {timeoutMs, pollMs})` starting at time `start`. -/
def waitForJob (lookup : Nat → Option WJob) (start timeoutMs pollMs fuel : Nat) :
    WaitOutcome :=
  waitTick lookup start timeoutMs pollMs fuel start

/-- A sentinel file left over from a previous run, for the C7 scenario. -/
def staleSentinel : DeployJson :=
  { address := "0xSTALE", txHash := some "0xold", deployerAddress := some "0xdead",
    network := some "sepolia" }

/-- Invariant of the queue machine at concurrency 1, maintained by every
event.  Job ids are list positions, so id order is creation order; the
`running` counter counts the `running` jobs and never exceeds 1; the queue
holds exactly the `queued` jobs, in creation order; `startedAt`/`finishedAt`
are stamped exactly when the status says so, lie below the clock, and
executions of distinct jobs are ordered: a job starts only after every
earlier-created job that ever starts, and only after every previously
started job has finished. -/
structure QInv (s : QState) : Prop where
  conc : s.concurrency = 1
  runEq : s.running = s.jobs.countP isRunningJob
  runLe : s.running ≤ 1
  queueMem : ∀ i : Nat, i ∈ s.queue ↔
    ∃ j : Job, s.jobs[i]? = some j ∧ j.status = JStatus.queued
  queueSorted : s.queue.Pairwise (· < ·)
  startedIff : ∀ (i : Nat) (j : Job), s.jobs[i]? = some j →
    ((∃ t, j.startedAt = some t) ↔ j.status ≠ JStatus.queued)
  finishedIff : ∀ (i : Nat) (j : Job), s.jobs[i]? = some j →
    ((∃ t, j.finishedAt = some t) ↔
      (j.status = JStatus.succeeded ∨ j.status = JStatus.failed))
  startedLt : ∀ (i : Nat) (j : Job) (t : Nat), s.jobs[i]? = some j →
    j.startedAt = some t → t < s.clock
  finishedLt : ∀ (i : Nat) (j : Job) (t : Nat), s.jobs[i]? = some j →
    j.finishedAt = some t → t < s.clock
  startFin : ∀ (i : Nat) (j : Job) (ts tf : Nat), s.jobs[i]? = some j →
    j.startedAt = some ts → j.finishedAt = some tf → ts < tf
  startOrder : ∀ (i1 i2 : Nat) (j1 j2 : Job) (t2 : Nat), s.jobs[i1]? = some j1 →
    s.jobs[i2]? = some j2 → i1 < i2 → j2.startedAt = some t2 →
    ∃ t1, j1.startedAt = some t1 ∧ t1 < t2
  priorFin : ∀ (i1 i2 : Nat) (j1 j2 : Job) (t2 : Nat), s.jobs[i1]? = some j1 →
    s.jobs[i2]? = some j2 → i1 < i2 → j2.startedAt = some t2 →
    ∃ f1, j1.finishedAt = some f1 ∧ f1 < t2

/-! # Theorems -/

/-- Characters with equal code points are equal. -/
theorem charToNat_inj {a b : Char} (h : a.toNat = b.toNat) : a = b :=
  Char.ext (UInt32.toNat.inj h)

/-- `lexLe` is total. -/
theorem lexLe_total : ∀ a b : List Char, lexLe a b = true ∨ lexLe b a = true := by
  intro a
  induction a with
  | nil => intro b; left; rfl
  | cons x xs ih =>
    intro b
    cases b with
    | nil => right; rfl
    | cons y ys =>
      by_cases hxy : x = y
      · subst hxy
        simpa only [lexLe, if_pos rfl] using ih ys
      · have hyx : ¬ y = x := fun h => hxy h.symm
        simp only [lexLe, if_neg hxy, if_neg hyx]
        rcases Nat.lt_trichotomy x.toNat y.toNat with h | h | h
        · left; exact decide_eq_true h
        · exact absurd (charToNat_inj h) hxy
        · right; exact decide_eq_true h

/-- `lexLe` is transitive. -/
theorem lexLe_trans :
    ∀ a b c : List Char, lexLe a b = true → lexLe b c = true → lexLe a c = true := by
  intro a
  induction a with
  | nil => intro b c _ _; rfl
  | cons x xs ih =>
    intro b c hab hbc
    cases b with
    | nil => simp only [lexLe] at hab; exact Bool.noConfusion hab
    | cons y ys =>
      cases c with
      | nil => simp only [lexLe] at hbc; exact Bool.noConfusion hbc
      | cons z zs =>
        by_cases hxy : x = y <;> by_cases hyz : y = z
        · subst hxy; subst hyz
          simp only [lexLe, if_pos rfl] at hab hbc ⊢
          exact ih ys zs hab hbc
        · subst hxy
          simp only [lexLe, if_pos rfl, if_neg hyz] at hab hbc ⊢
          exact hbc
        · subst hyz
          simp only [lexLe, if_pos rfl, if_neg hxy] at hab hbc ⊢
          exact hab
        · simp only [lexLe, if_neg hxy, if_neg hyz] at hab hbc
          have h1 : x.toNat < y.toNat := of_decide_eq_true hab
          have h2 : y.toNat < z.toNat := of_decide_eq_true hbc
          have hxz : ¬ x = z := by
            intro he
            subst he
            omega
          simp only [lexLe, if_neg hxz]
          exact decide_eq_true (Nat.lt_trans h1 h2)

/-- `lexLe` is antisymmetric. -/
theorem lexLe_antisymm :
    ∀ a b : List Char, lexLe a b = true → lexLe b a = true → a = b := by
  intro a
  induction a with
  | nil =>
    intro b _ hba
    cases b with
    | nil => rfl
    | cons y ys => simp only [lexLe] at hba; exact Bool.noConfusion hba
  | cons x xs ih =>
    intro b hab hba
    cases b with
    | nil => simp only [lexLe] at hab; exact Bool.noConfusion hab
    | cons y ys =>
      by_cases hxy : x = y
      · subst hxy
        simp only [lexLe, if_pos rfl] at hab hba
        exact congrArg (x :: ·) (ih ys hab hba)
      · have hyx : ¬ y = x := fun h => hxy h.symm
        simp only [lexLe, if_neg hxy, if_neg hyx] at hab hba
        have h1 : x.toNat < y.toNat := of_decide_eq_true hab
        have h2 : y.toNat < x.toNat := of_decide_eq_true hba
        omega

/-- Sorting is invariant under permutation of the input. -/
theorem sortStrs_eq_of_perm {l1 l2 : List String} (h : l1.Perm l2) :
    sortStrs l1 = sortStrs l2 := by
  haveI : IsTotal String strLe := ⟨fun a b => lexLe_total a.data b.data⟩
  haveI : IsTrans String strLe := ⟨fun a b c => lexLe_trans a.data b.data c.data⟩
  haveI : IsAntisymm String strLe := ⟨fun a b h1 h2 => by
    cases a with
    | mk da =>
      cases b with
      | mk db => exact congrArg String.mk (lexLe_antisymm da db h1 h2)⟩
  exact List.eq_of_perm_of_sorted
    ((List.perm_insertionSort strLe l1).trans (h.trans (List.perm_insertionSort strLe l2).symm))
    (List.sorted_insertionSort strLe l1) (List.sorted_insertionSort strLe l2)

/-- Claim C2, counterexample: the module lists `["a"]` and `["a", "a"]` denote
the same module set once order, casing, whitespace and duplicates are ignored,
yet the resolver maps them to different artifact keys (`ERC20__a` versus
`ERC20__a_a`): neither `artifactKeyForToken` nor `resolveERC20ArtifactKey`
deduplicates, and `resolveERC20ArtifactKey` does not lower-case either, as
`["A"]` versus `["a"]` shows. -/
theorem c2_set_invariance_counterexample :
    specModuleSetC2 ["a"] = specModuleSetC2 ["a", "a"] ∧
    artifactKeyForToken "ERC20" ["a"] ≠ artifactKeyForToken "ERC20" ["a", "a"] ∧
    specModuleSetC2 ["A"] = specModuleSetC2 ["a"] ∧
    resolveERC20ArtifactKey ["A"] ≠ resolveERC20ArtifactKey ["a"] := by
  refine ⟨by decide, by decide, by decide, by decide⟩

/-- Claim C2 (amended): the artifact-key resolver is invariant under module
order, surrounding whitespace and casing — whenever two module lists have the
same normalized multiset (`normalizeModules` output equal up to permutation),
they resolve to the same key — but it is not invariant under duplicates. -/
theorem c2_perm_invariance_amended (kind : String) (M1 M2 : List String)
    (h : (normalizeModules M1).Perm (normalizeModules M2)) :
    artifactKeyForToken kind M1 = artifactKeyForToken kind M2 := by
  unfold artifactKeyForToken
  rw [sortStrs_eq_of_perm h]

/-- Witness for the amended C2 at a concrete input: order, whitespace and
casing differences do not change the key. -/
theorem c2_perm_invariance_amended_witness :
    artifactKeyForToken "ERC20" ["Pausable", " burnable "] =
      artifactKeyForToken "ERC20" ["burnable", "pausable"] :=
  c2_perm_invariance_amended "ERC20" ["Pausable", " burnable "]
    ["burnable", "pausable"] (by decide)

/-- Claim C9, counterexample: the claim's quoted transient pattern
"unable to locate contract code" (with a space) is not the source's pattern
("unable to locate contractcode", no space), so a message consisting of the
claim's own pattern is classified non-retryable by the code. -/
theorem c9_retryable_patterns_counterexample :
    specRetryableC9 "Unable to locate Contract Code at given address" = true ∧
    isRetryable "Unable to locate Contract Code at given address" = false := by
  refine ⟨by decide, by decide⟩

/-- Claim C9 (amended): a non-success verification response is classified
retryable exactly when its message contains, case-insensitively, one of the
source's transient patterns "unable to locate contractcode" (no space),
"rate limit", "temporarily", "timeout", "try again"; in particular
"Max rate limit reached" is retryable and "Invalid API Key" is not, and a
first-attempt response classified non-retryable terminates the submission
flow immediately as `failed` with that message. -/
theorem c9_retryable_classification_amended :
    isRetryable "Max rate limit reached" = true ∧
    isRetryable "Invalid API Key" = false ∧
    (∀ msg, isRetryable msg =
      (jsIncludes (jsToLower msg) "unable to locate contractcode" ||
       jsIncludes (jsToLower msg) "rate limit" ||
       jsIncludes (jsToLower msg) "temporarily" ||
       jsIncludes (jsToLower msg) "timeout" ||
       jsIncludes (jsToLower msg) "try again")) ∧
    (∀ subs : Nat → SubmitRes, (subs 0).ok = false → (subs 0).retryable = false →
      (verifySubmitPhase subs).1 = .done false "failed" (subs 0).error ∧
      (verifySubmitPhase subs).2.1 = 1) := by
  refine ⟨by decide, by decide, fun msg => rfl, fun subs h1 h2 => ?_⟩
  have he : submitAttempts subs 0 5 = (subs 0, 1, []) := by
    simp [submitAttempts, h1, h2]
  constructor
  · simp [verifySubmitPhase, he, h1, h2]
  · simp only [verifySubmitPhase, he]
    split
    · rfl
    · split
      · rfl
      · split
        · rfl
        · rfl

/-- Witness for the amended C9: concrete classification outcomes and a
concrete non-retryable submission terminating as `failed`. -/
theorem c9_retryable_classification_amended_witness :
    isRetryable "Max rate limit reached" = true ∧
    (verifySubmitPhase
        (fun _ => { ok := false, retryable := false, error := "Invalid API Key" })).1 =
      SubmitPhaseOut.done false "failed" "Invalid API Key" :=
  ⟨c9_retryable_classification_amended.1,
   (c9_retryable_classification_amended.2.2.2
      (fun _ => { ok := false, retryable := false, error := "Invalid API Key" })
      rfl rfl).1⟩

/-- Behaviour of the submission loop `for (let i = 0; i < 5; i++) ...` of
`verifyOnEtherscan`, by induction on the remaining iteration budget. -/
theorem submitAttempts_spec (subs : Nat → SubmitRes) :
    ∀ rem i, 1 ≤ rem →
      1 ≤ (submitAttempts subs i rem).2.1 ∧
      (submitAttempts subs i rem).2.1 ≤ rem ∧
      (submitAttempts subs i rem).1 = subs (i + (submitAttempts subs i rem).2.1 - 1) ∧
      (∀ j, j + 1 < (submitAttempts subs i rem).2.1 →
        (subs (i + j)).ok = false ∧ (subs (i + j)).retryable = true) ∧
      (submitAttempts subs i rem).2.2 =
        (List.range (submitAttempts subs i rem).2.2.length).map
          (fun j => 10000 * (i + j + 1)) ∧
      (submitAttempts subs i rem).2.2.length ≤ (submitAttempts subs i rem).2.1 ∧
      (((submitAttempts subs i rem).1.ok = false ∧
        (submitAttempts subs i rem).1.retryable = true) →
        ((submitAttempts subs i rem).2.1 = rem ∧
         (submitAttempts subs i rem).2.2.length = (submitAttempts subs i rem).2.1)) := by
  intro rem
  induction rem with
  | zero => intro i h; omega
  | succ r ihr =>
    intro i _
    cases hok : (subs i).ok with
    | true =>
      have he : submitAttempts subs i (r + 1) = (subs i, 1, []) := by
        cases r <;> simp [submitAttempts, hok]
      rw [he]
      dsimp only
      refine ⟨by omega, by omega, by simp, fun j hj => by omega, by simp, by simp, ?_⟩
      intro hlast
      rw [hok] at hlast
      exact absurd hlast.1 (by simp)
    | false =>
      cases hrt : (subs i).retryable with
      | false =>
        have he : submitAttempts subs i (r + 1) = (subs i, 1, []) := by
          cases r <;> simp [submitAttempts, hok, hrt]
        rw [he]
        dsimp only
        refine ⟨by omega, by omega, by simp, fun j hj => by omega, by simp, by simp, ?_⟩
        intro hlast
        rw [hrt] at hlast
        exact absurd hlast.2 (by simp)
      | true =>
        cases r with
        | zero =>
          have he : submitAttempts subs i 1 = (subs i, 1, [10000 * (i + 1)]) := by
            simp [submitAttempts, hok, hrt]
          rw [he]
          dsimp only
          refine ⟨by omega, by omega, by simp, fun j hj => by omega, ?_, by simp, ?_⟩
          · simp [List.range_succ]
          · exact fun _ => ⟨rfl, rfl⟩
        | succ r' =>
          have he : submitAttempts subs i (r' + 1 + 1) =
              ((submitAttempts subs (i + 1) (r' + 1)).1,
               (submitAttempts subs (i + 1) (r' + 1)).2.1 + 1,
               10000 * (i + 1) :: (submitAttempts subs (i + 1) (r' + 1)).2.2) := by
            simp [submitAttempts, hok, hrt]
          obtain ⟨ih1, ih2, ih3, ih4, ih5, ih6, ih7⟩ := ihr (i + 1) (by omega)
          rw [he]
          dsimp only
          refine ⟨by omega, by omega, ?_, ?_, ?_, by simp only [List.length_cons]; omega, ?_⟩
          · have hidx : i + 1 + (submitAttempts subs (i + 1) (r' + 1)).2.1 - 1 =
                i + ((submitAttempts subs (i + 1) (r' + 1)).2.1 + 1) - 1 := by omega
            rw [ih3, hidx]
          · intro j hj
            cases j with
            | zero => simpa using ⟨hok, hrt⟩
            | succ jj =>
              have hjj : jj + 1 < (submitAttempts subs (i + 1) (r' + 1)).2.1 := by
                omega
              have := ih4 jj hjj
              have hidx : i + (jj + 1) = i + 1 + jj := by omega
              rw [hidx]
              exact this
          · simp only [List.length_cons]
            rw [List.range_succ_eq_map, List.map_cons, List.map_map]
            have hfun : ((fun j => 10000 * (i + j + 1)) ∘ Nat.succ) =
                (fun j => 10000 * (i + 1 + j + 1)) :=
              funext (fun j => congrArg (fun t => 10000 * t) (by omega))
            rw [hfun]
            have hhead : 10000 * (i + 0 + 1) = 10000 * (i + 1) := by
              congr 1
            rw [hhead]
            exact congrArg (10000 * (i + 1) :: ·) ih5
          · intro hlast
            have := ih7 hlast
            constructor
            · omega
            · simp only [List.length_cons]
              omega

/-- The attempt count and sleep trace returned by `verifySubmitPhase` are
those of the submission loop, whatever the terminal classification. -/
theorem verifySubmitPhase_snd (subs : Nat → SubmitRes) :
    (verifySubmitPhase subs).2 = (submitAttempts subs 0 5).2 := by
  simp only [verifySubmitPhase]
  split
  · rfl
  · split
    · rfl
    · split <;> rfl

/-- Claim C8: verification submission is attempted at most 5 times; attempts
continue only while the previous failure was classified retryable; the k-th
pause is the linear backoff `10s * k`; a non-retryable failure (here the
`k+1`-st and last attempt) terminates immediately with status `failed`; and
exhausting all 5 attempts on retryable failures yields status `retryable`
(distinct from `failed`) carrying the last error message. -/
theorem c8_submission_retry_policy (subs : Nat → SubmitRes) :
    1 ≤ (verifySubmitPhase subs).2.1 ∧ (verifySubmitPhase subs).2.1 ≤ 5 ∧
    (∀ j, j + 1 < (verifySubmitPhase subs).2.1 →
      (subs j).ok = false ∧ (subs j).retryable = true) ∧
    (verifySubmitPhase subs).2.2 =
      (List.range (verifySubmitPhase subs).2.2.length).map (fun j => 10000 * (j + 1)) ∧
    (verifySubmitPhase subs).2.2.length ≤ (verifySubmitPhase subs).2.1 ∧
    (∀ k, (verifySubmitPhase subs).2.1 = k + 1 → (subs k).ok = false →
      (subs k).retryable = false →
      (verifySubmitPhase subs).1 = .done false "failed" (subs k).error) ∧
    ((∀ j, j < 5 → (subs j).ok = false ∧ (subs j).retryable = true ∧
        (subs j).alreadyVerified = false) →
      ((verifySubmitPhase subs).2.1 = 5 ∧
       (verifySubmitPhase subs).1 = .done false "retryable" (subs 4).error)) := by
  obtain ⟨h1, h2, h3, h4, h5, h6, h7⟩ := submitAttempts_spec subs 5 0 (by omega)
  have hsnd := verifySubmitPhase_snd subs
  have ha : (verifySubmitPhase subs).2.1 = (submitAttempts subs 0 5).2.1 := by rw [hsnd]
  have hb : (verifySubmitPhase subs).2.2 = (submitAttempts subs 0 5).2.2 := by rw [hsnd]
  refine ⟨?_, ?_, ?_, ?_, ?_, ?_, ?_⟩
  · rw [ha]; exact h1
  · rw [ha]; exact h2
  · rw [ha]
    intro j hj
    simpa using h4 j hj
  · rw [hb]
    have hfun : (fun j => 10000 * (0 + j + 1)) = (fun j => 10000 * (j + 1)) :=
      funext (fun j => congrArg (fun t => 10000 * t) (by omega))
    have h5f := h5
    rw [hfun] at h5f
    exact h5f
  · rw [ha, hb]; exact h6
  · intro k hk hko hkr
    rw [ha] at hk
    have hlast : (submitAttempts subs 0 5).1 = subs k := by
      rw [h3, hk]
      congr 1
      omega
    simp only [verifySubmitPhase, hlast, hko, hkr]
    simp
  · intro hall
    have hidx : (0:Nat) + (submitAttempts subs 0 5).2.1 - 1 < 5 := by omega
    have hprops := hall _ hidx
    have hn : (submitAttempts subs 0 5).2.1 = 5 :=
      (h7 ⟨by rw [h3]; exact hprops.1, by rw [h3]; exact hprops.2.1⟩).1
    have hlast : (submitAttempts subs 0 5).1 = subs 4 := by
      rw [h3, hn]
    have h4props := hall 4 (by omega)
    constructor
    · rw [ha]; exact hn
    · simp only [verifySubmitPhase, hlast, h4props.1, h4props.2.1, h4props.2.2]
      simp

/-- Witness for C8: with every attempt failing retryable, all 5 attempts are
made and the outcome is status `retryable` carrying the last error. -/
theorem c8_submission_retry_policy_witness :
    (verifySubmitPhase (fun _ => { ok := false, retryable := true, error := "busy" })).2.1 = 5 ∧
    (verifySubmitPhase (fun _ => { ok := false, retryable := true, error := "busy" })).1 =
      SubmitPhaseOut.done false "retryable" "busy" :=
  (c8_submission_retry_policy
      (fun _ => { ok := false, retryable := true, error := "busy" })).2.2.2.2.2.2
    (fun _ _ => ⟨rfl, rfl, rfl⟩)

/-- Claim C6: when the toolchain exits 0 but the sentinel output file was not
written (and none was left lying around), the executor fails with the
`Deployment output file not found` error carrying the captured toolchain
output; a zero exit code alone is never treated as success. -/
theorem c6_output_missing (cf cn nw out : String) (v : Bool)
    (h1 : cf ≠ "") (h2 : cn ≠ "") :
    (runHardhatDeployModel cf cn nw none none (.ok out) v).1 =
      .error ("Deployment output file not found.\nHardhat output:\n" ++ out) := by
  simp [runHardhatDeployModel, sentinelAfter, h1, h2]

/-- Witness for C6 at a concrete invocation. -/
theorem c6_output_missing_witness :
    (runHardhatDeployModel "Token.sol" "Token" "sepolia" none none (.ok "done") false).1 =
      .error ("Deployment output file not found.\nHardhat output:\n" ++ "done") :=
  c6_output_missing "Token.sol" "Token" "sepolia" "done" false (by decide) (by decide)

/-- Claim C7, counterexample: the executor does not clear or validate the
sentinel path before spawning — with a stale sentinel from a previous run in
place and a toolchain that exits 0 without writing anything, the call
silently succeeds with the stale file's contents instead of failing. -/
theorem c7_stale_sentinel_counterexample :
    (runHardhatDeployModel "Token.sol" "Token" "sepolia" (some staleSentinel) none
        (.ok "wrote nothing") false).1 =
      .ok { address := "0xSTALE", txHash := some "0xold",
            deployerAddress := some "0xdead", network := "sepolia", verified := false } :=
  rfl

/-- Claim C7 (amended): the executor deletes the sentinel file after parsing
it into the deployment result, but it does not clear or validate the sentinel
path before spawning the toolchain: a pre-existing sentinel file is silently
consumed as the deployment result when the toolchain exits 0 without writing
one. -/
theorem c7_sentinel_lifecycle_amended (cf cn nw out : String)
    (pre tw : Option DeployJson) (v : Bool) :
    (∀ res, (runHardhatDeployModel cf cn nw pre tw (.ok out) v).1 = .ok res →
      (runHardhatDeployModel cf cn nw pre tw (.ok out) v).2 = none) ∧
    (∀ stale, cf ≠ "" → cn ≠ "" →
      (runHardhatDeployModel cf cn nw (some stale) none (.ok out) v).1 =
        .ok { address := stale.address, txHash := jsOrNull stale.txHash,
              deployerAddress := jsOrNull stale.deployerAddress,
              network := jsOrDefault stale.network nw, verified := v }) := by
  constructor
  · intro res hres
    by_cases hp : cf = "" ∨ cn = ""
    · simp [runHardhatDeployModel, hp] at hres
    · cases hfa : sentinelAfter tw pre with
      | none => simp [runHardhatDeployModel, hp, hfa] at hres
      | some dj => simp [runHardhatDeployModel, hp, hfa]
  · intro stale h1 h2
    simp [runHardhatDeployModel, sentinelAfter, h1, h2]

/-- Witness for the amended C7: after a successful run the sentinel file is
gone, and a concrete stale sentinel is silently consumed. -/
theorem c7_sentinel_lifecycle_amended_witness :
    (runHardhatDeployModel "Token.sol" "Token" "sepolia" none (some staleSentinel)
        (.ok "o") true).2 = none ∧
    (runHardhatDeployModel "Token.sol" "Token" "sepolia" (some staleSentinel) none
        (.ok "o") true).1 =
      .ok { address := "0xSTALE", txHash := some "0xold",
            deployerAddress := some "0xdead", network := "sepolia", verified := true } :=
  ⟨(c7_sentinel_lifecycle_amended "Token.sol" "Token" "sepolia" "o" none
      (some staleSentinel) true).1
      { address := "0xSTALE", txHash := some "0xold", deployerAddress := some "0xdead",
        network := "sepolia", verified := true } rfl,
   (c7_sentinel_lifecycle_amended "Token.sol" "Token" "sepolia" "o"
      (some staleSentinel) none true).2 staleSentinel (by decide) (by decide)⟩

/-- Claim C10: a failure of the embedded post-deployment verification step
never fails `runHardhatDeploy` nor alters the deployment fields — whenever
the deployment itself succeeded (exit 0 with a sentinel present), the call
returns the parsed result with `verified = false` when the verify child
process fails, and the deployment fields are identical for either
verification outcome. -/
theorem c10_verification_failure_nonfatal (cf cn nw out : String)
    (pre tw : Option DeployJson) (dj : DeployJson)
    (h1 : cf ≠ "") (h2 : cn ≠ "") (hf : sentinelAfter tw pre = some dj) :
    (runHardhatDeployModel cf cn nw pre tw (.ok out) false).1 =
      .ok { address := dj.address, txHash := jsOrNull dj.txHash,
            deployerAddress := jsOrNull dj.deployerAddress,
            network := jsOrDefault dj.network nw, verified := false } ∧
    (∀ v : Bool, (runHardhatDeployModel cf cn nw pre tw (.ok out) v).1 =
      .ok { address := dj.address, txHash := jsOrNull dj.txHash,
            deployerAddress := jsOrNull dj.deployerAddress,
            network := jsOrDefault dj.network nw, verified := v }) := by
  constructor
  · simp [runHardhatDeployModel, h1, h2, hf]
  · intro v
    simp [runHardhatDeployModel, h1, h2, hf]

/-- Witness for C10 at a concrete deployment result. -/
theorem c10_verification_failure_nonfatal_witness :
    (runHardhatDeployModel "Token.sol" "Token" "sepolia" none
        (some { address := "0xabc", txHash := some "0xdef",
                deployerAddress := some "0x123", network := some "sepolia" })
        (.ok "o") false).1 =
      .ok { address := "0xabc", txHash := some "0xdef", deployerAddress := some "0x123",
            network := "sepolia", verified := false } :=
  (c10_verification_failure_nonfatal "Token.sol" "Token" "sepolia" "o" none
      (some { address := "0xabc", txHash := some "0xdef",
              deployerAddress := some "0x123", network := some "sepolia" })
      { address := "0xabc", txHash := some "0xdef",
        deployerAddress := some "0x123", network := some "sepolia" }
      (by decide) (by decide) rfl).1

/-- One polling tick of `waitForJob`, unfolded. -/
theorem waitTick_unfold (lookup : Nat → Option WJob) (start T p fuel now : Nat) :
    waitTick lookup start T p (fuel + 1) now =
      match lookup now with
      | none => .notFound
      | some j =>
        if j.status = .succeeded then .resolved j
        else if j.status = .failed then .failedMsg (waitErrMsg j.error)
        else if now - start > T then .timedOut
        else waitTick lookup start T p fuel (now + p) := rfl

/-- If the watched job stays `queued`/`running`, the polling loop rejects
with the timeout error once `timeoutMs` is exceeded, for any tick it reaches
past the deadline. -/
theorem waitTick_timeout (lookup : Nat → Option WJob) (start T p : Nat) (j : WJob)
    (hl : ∀ t, lookup t = some j)
    (hs : j.status = .queued ∨ j.status = .running) :
    ∀ fuel now, start ≤ now → start + T < now + fuel * p →
      waitTick lookup start T p (fuel + 1) now = .timedOut := by
  have hns : ¬ j.status = JStatus.succeeded := by rcases hs with h | h <;> simp [h]
  have hnf : ¬ j.status = JStatus.failed := by rcases hs with h | h <;> simp [h]
  intro fuel
  induction fuel with
  | zero =>
    intro now h1 h2
    rw [Nat.zero_mul] at h2
    have hgt : now - start > T := by omega
    rw [waitTick_unfold, hl now]
    dsimp only
    rw [if_neg hns, if_neg hnf, if_pos hgt]
  | succ f ihf =>
    intro now h1 h2
    rw [Nat.succ_mul] at h2
    rw [waitTick_unfold, hl now]
    dsimp only
    rw [if_neg hns, if_neg hnf]
    by_cases hgt : now - start > T
    · rw [if_pos hgt]
    · rw [if_neg hgt]
      exact ihf (now + p) (by omega) (by omega)

/-- Claim C5: `waitForJob` rejects with the job-not-found error when the id
never existed; resolves with the job when it reached `succeeded`; re-raises
the job's recorded error message when it reached `failed`; and rejects with
the timeout error when `timeoutMs` elapses while the job is still `queued`
or `running` — the job itself is left in that state (the wait loop is a pure
observer and in particular does not mark the job `failed`). -/
theorem c5_waitForJob_outcomes (lookup : Nat → Option WJob)
    (start timeoutMs pollMs fuel : Nat) :
    (lookup start = none →
      waitForJob lookup start timeoutMs pollMs (fuel + 1) = .notFound) ∧
    (∀ j, lookup start = some j → j.status = .succeeded →
      waitForJob lookup start timeoutMs pollMs (fuel + 1) = .resolved j) ∧
    (∀ j m, lookup start = some j → j.status = .failed → j.error = some m → m ≠ "" →
      waitForJob lookup start timeoutMs pollMs (fuel + 1) = .failedMsg m) ∧
    (∀ j, (∀ t, lookup t = some j) → (j.status = .queued ∨ j.status = .running) →
      timeoutMs < fuel * pollMs →
      (waitForJob lookup start timeoutMs pollMs (fuel + 1) = .timedOut ∧
       j.status ≠ .failed ∧ j.status ≠ .succeeded)) := by
  refine ⟨?_, ?_, ?_, ?_⟩
  · intro h
    simp [waitForJob, waitTick, h]
  · intro j hj hs
    simp [waitForJob, waitTick, hj, hs]
  · intro j m hj hs he hm
    simp [waitForJob, waitTick, hj, hs, waitErrMsg, he, hm]
  · intro j hl hs hlt
    refine ⟨?_, ?_, ?_⟩
    · exact waitTick_timeout lookup start timeoutMs pollMs j hl hs fuel start
        (Nat.le_refl start) (by omega)
    · rcases hs with h | h <;> simp [h]
    · rcases hs with h | h <;> simp [h]

/-- Witness for C5: the four rejection/resolution behaviours at concrete
snapshots, including a timeout with the job still `running`. -/
theorem c5_waitForJob_outcomes_witness :
    waitForJob (fun _ => none) 0 100 10 1 = .notFound ∧
    waitForJob (fun _ => some { status := .succeeded }) 0 100 10 1 =
      .resolved { status := .succeeded } ∧
    waitForJob (fun _ => some { status := .failed, error := some "boom" }) 0 100 10 1 =
      .failedMsg "boom" ∧
    waitForJob (fun _ => some { status := .running }) 0 5 2 4 = .timedOut :=
  ⟨(c5_waitForJob_outcomes (fun _ => none) 0 100 10 0).1 rfl,
   (c5_waitForJob_outcomes (fun _ => some { status := .succeeded }) 0 100 10 0).2.1
      { status := .succeeded } rfl rfl,
   (c5_waitForJob_outcomes (fun _ => some { status := .failed, error := some "boom" })
      0 100 10 0).2.2.1 { status := .failed, error := some "boom" } "boom"
      rfl rfl rfl (by decide),
   ((c5_waitForJob_outcomes (fun _ => some { status := .running }) 0 5 2 3).2.2.2
      { status := .running } (fun _ => rfl) (Or.inr rfl) (by omega)).1⟩

/-- A successful indexed lookup bounds the index. -/
theorem getElem?_some_lt {α : Type} {l : List α} {i : Nat} {a : α}
    (h : l[i]? = some a) : i < l.length := by
  obtain ⟨hl, _⟩ := List.getElem?_eq_some.mp h
  exact hl

/-- A successful indexed lookup yields a member. -/
theorem mem_of_getElem?_some {α : Type} {l : List α} {i : Nat} {a : α}
    (h : l[i]? = some a) : a ∈ l := by
  obtain ⟨hl, he⟩ := List.getElem?_eq_some.mp h
  exact he ▸ List.getElem_mem hl

/-- An option with no witness is `none`. -/
theorem option_eq_none_of_not_ex {α : Type} {o : Option α}
    (h : ¬ ∃ t, o = some t) : o = none := by
  cases o with
  | none => rfl
  | some t => exact absurd ⟨t, rfl⟩ h

/-- Updating position `i` exchanges the old element's contribution to a
`countP` for the new one's. -/
theorem countP_set_comm {α : Type} (p : α → Bool) :
    ∀ (l : List α) (i : Nat) (a b : α), l[i]? = some a →
      (l.set i b).countP p + (if p a then 1 else 0) =
        l.countP p + (if p b then 1 else 0) := by
  intro l
  induction l with
  | nil => intro i a b h; simp at h
  | cons x xs ih =>
    intro i a b h
    cases i with
    | zero =>
      rw [List.getElem?_cons_zero] at h
      injection h with h
      subst h
      rw [List.set_cons_zero, List.countP_cons, List.countP_cons]
      omega
    | succ k =>
      rw [List.getElem?_cons_succ] at h
      rw [List.set_cons_succ, List.countP_cons, List.countP_cons]
      have := ih k a b h
      omega

/-- Lookup in a list updated at `i`, split on the index. -/
theorem getElem?_set_split {α : Type} {l : List α} {i : Nat} {a : α}
    (hilt : i < l.length) (k : Nat) :
    (l.set i a)[k]? = if i = k then some a else l[k]? := by
  rw [List.getElem?_set]
  by_cases hik : i = k
  · simp [hik, hik ▸ hilt]
  · simp [hik]

/-- The exported singleton queue satisfies the invariant. -/
theorem qinv_init : QInv initState := by
  refine ⟨rfl, rfl, by decide, ?_, List.Pairwise.nil, ?_, ?_, ?_, ?_, ?_, ?_, ?_⟩
  · intro i
    constructor
    · intro hi
      simp [initState, mkDeployQueue] at hi
    · rintro ⟨j, hj, _⟩
      simp [initState, mkDeployQueue] at hj
  · intro i j hj
    simp [initState, mkDeployQueue] at hj
  · intro i j hj
    simp [initState, mkDeployQueue] at hj
  · intro i j t hj ht
    simp [initState, mkDeployQueue] at hj
  · intro i j t hj ht
    simp [initState, mkDeployQueue] at hj
  · intro i j ts tf hj hts htf
    simp [initState, mkDeployQueue] at hj
  · intro i1 i2 j1 j2 t2 h1 h2 h12 hst2
    simp [initState, mkDeployQueue] at h1
  · intro i1 i2 j1 j2 t2 h1 h2 h12 hst2
    simp [initState, mkDeployQueue] at h1

/-- `appendJob` (the body of `createJob` before its `_drain()` call)
preserves the invariant. -/
theorem qinv_append (s : QState) (h : QInv s) (hb : HBehavior) (inp : String) :
    QInv (appendJob s hb inp) := by
  obtain ⟨hc, hre, hrl, hqm, hqs, hsi, hfi, hsl, hfl, hsf, hso, hpf⟩ := h
  set nj : Job := { status := .queued, createdAt := s.clock, handler := hb, input := inp }
    with hnjdef
  have hjobs : (appendJob s hb inp).jobs = s.jobs ++ [nj] := rfl
  have hqueue : (appendJob s hb inp).queue = s.queue ++ [s.jobs.length] := rfl
  have hclock : (appendJob s hb inp).clock = s.clock + 1 := rfl
  have hrun : (appendJob s hb inp).running = s.running := rfl
  have hconc : (appendJob s hb inp).concurrency = s.concurrency := rfl
  have hlt : ∀ k, k < s.jobs.length → (s.jobs ++ [nj])[k]? = s.jobs[k]? := by
    intro k hk
    rw [List.getElem?_append, if_pos hk]
  have heqN : (s.jobs ++ [nj])[s.jobs.length]? = some nj :=
    List.getElem?_concat_length s.jobs nj
  have hgt : ∀ k, s.jobs.length < k → (s.jobs ++ [nj])[k]? = none := by
    intro k hk
    rw [List.getElem?_append, if_neg (by omega)]
    exact List.getElem?_eq_none (by simp; omega)
  have hnjs : nj.status = JStatus.queued := rfl
  have hnjst : nj.startedAt = none := rfl
  have hnjfin : nj.finishedAt = none := rfl
  refine ⟨?_, ?_, ?_, ?_, ?_, ?_, ?_, ?_, ?_, ?_, ?_, ?_⟩
  · rw [hconc]
    exact hc
  · rw [hrun, hjobs, List.countP_append]
    have h0 : List.countP isRunningJob [nj] = 0 := rfl
    omega
  · rw [hrun]
    exact hrl
  · intro k
    rw [hqueue, hjobs, List.mem_append]
    constructor
    · rintro (hk | hk)
      · obtain ⟨j, hj, hjs⟩ := (hqm k).mp hk
        exact ⟨j, by rw [hlt k (getElem?_some_lt hj)]; exact hj, hjs⟩
      · have hkN : k = s.jobs.length := by simpa using hk
        subst hkN
        exact ⟨nj, heqN, hnjs⟩
    · rintro ⟨j, hj, hjs⟩
      rcases Nat.lt_trichotomy k s.jobs.length with hk | hk | hk
      · rw [hlt k hk] at hj
        exact Or.inl ((hqm k).mpr ⟨j, hj, hjs⟩)
      · subst hk
        exact Or.inr (by simp)
      · rw [hgt k hk] at hj
        exact absurd hj (by simp)
  · rw [hqueue, List.pairwise_append]
    refine ⟨hqs, by simp, ?_⟩
    intro a ha b hbm
    have hbN : b = s.jobs.length := by simpa using hbm
    subst hbN
    obtain ⟨j, hj, _⟩ := (hqm a).mp ha
    exact getElem?_some_lt hj
  · intro k j hj
    rw [hjobs] at hj
    rcases Nat.lt_trichotomy k s.jobs.length with hk | hk | hk
    · rw [hlt k hk] at hj
      exact hsi k j hj
    · subst hk
      rw [heqN] at hj
      injection hj with hj
      subst hj
      rw [hnjs, hnjst]
      simp
    · rw [hgt k hk] at hj
      exact absurd hj (by simp)
  · intro k j hj
    rw [hjobs] at hj
    rcases Nat.lt_trichotomy k s.jobs.length with hk | hk | hk
    · rw [hlt k hk] at hj
      exact hfi k j hj
    · subst hk
      rw [heqN] at hj
      injection hj with hj
      subst hj
      rw [hnjs, hnjfin]
      simp
    · rw [hgt k hk] at hj
      exact absurd hj (by simp)
  · intro k j t hj ht
    rw [hjobs] at hj
    rw [hclock]
    rcases Nat.lt_trichotomy k s.jobs.length with hk | hk | hk
    · rw [hlt k hk] at hj
      have := hsl k j t hj ht
      omega
    · subst hk
      rw [heqN] at hj
      injection hj with hj
      subst hj
      rw [hnjst] at ht
      exact absurd ht (by simp)
    · rw [hgt k hk] at hj
      exact absurd hj (by simp)
  · intro k j t hj ht
    rw [hjobs] at hj
    rw [hclock]
    rcases Nat.lt_trichotomy k s.jobs.length with hk | hk | hk
    · rw [hlt k hk] at hj
      have := hfl k j t hj ht
      omega
    · subst hk
      rw [heqN] at hj
      injection hj with hj
      subst hj
      rw [hnjfin] at ht
      exact absurd ht (by simp)
    · rw [hgt k hk] at hj
      exact absurd hj (by simp)
  · intro k j ts tf hj hts htf
    rw [hjobs] at hj
    rcases Nat.lt_trichotomy k s.jobs.length with hk | hk | hk
    · rw [hlt k hk] at hj
      exact hsf k j ts tf hj hts htf
    · subst hk
      rw [heqN] at hj
      injection hj with hj
      subst hj
      rw [hnjst] at hts
      exact absurd hts (by simp)
    · rw [hgt k hk] at hj
      exact absurd hj (by simp)
  · intro i1 i2 j1 j2 t2 h1 h2 h12 hst2
    rw [hjobs] at h1 h2
    rcases Nat.lt_trichotomy i2 s.jobs.length with hk2 | hk2 | hk2
    · rw [hlt i2 hk2] at h2
      rw [hlt i1 (by omega)] at h1
      exact hso i1 i2 j1 j2 t2 h1 h2 h12 hst2
    · subst hk2
      rw [heqN] at h2
      injection h2 with h2
      subst h2
      rw [hnjst] at hst2
      exact absurd hst2 (by simp)
    · rw [hgt i2 hk2] at h2
      exact absurd h2 (by simp)
  · intro i1 i2 j1 j2 t2 h1 h2 h12 hst2
    rw [hjobs] at h1 h2
    rcases Nat.lt_trichotomy i2 s.jobs.length with hk2 | hk2 | hk2
    · rw [hlt i2 hk2] at h2
      rw [hlt i1 (by omega)] at h1
      exact hpf i1 i2 j1 j2 t2 h1 h2 h12 hst2
    · subst hk2
      rw [heqN] at h2
      injection h2 with h2
      subst h2
      rw [hnjst] at hst2
      exact absurd hst2 (by simp)
    · rw [hgt i2 hk2] at h2
      exact absurd h2 (by simp)

/-- Completing a `running` job (the settled continuation of `_drain`)
preserves the invariant. -/
theorem qinv_complete (s : QState) (h : QInv s) (i : Nat) (j : Job)
    (out : Except String String) (hj : s.jobs[i]? = some j)
    (hr : j.status = JStatus.running) : QInv (completeJob s i out) := by
  obtain ⟨hc, hre, hrl, hqm, hqs, hsi, hfi, hsl, hfl, hsf, hso, hpf⟩ := h
  have hilt : i < s.jobs.length := getElem?_some_lt hj
  obtain ⟨ts, hts⟩ : ∃ t, j.startedAt = some t := (hsi i j hj).mpr (by rw [hr]; simp)
  have hjfn : j.finishedAt = none := by
    apply option_eq_none_of_not_ex
    rintro ⟨tf, htf⟩
    have hd := (hfi i j hj).mp ⟨tf, htf⟩
    rw [hr] at hd
    rcases hd with h' | h' <;> exact JStatus.noConfusion h'
  have hiq : i ∉ s.queue := by
    intro hin
    obtain ⟨j0, hj0, hq0⟩ := (hqm i).mp hin
    rw [hj] at hj0
    injection hj0 with e
    rw [← e, hr] at hq0
    exact JStatus.noConfusion hq0
  have main : ∀ j' : Job, j'.startedAt = j.startedAt → j'.finishedAt = some s.clock →
      (j'.status = JStatus.succeeded ∨ j'.status = JStatus.failed) →
      QInv { s with jobs := s.jobs.set i j', clock := s.clock + 1, running := s.running - 1 } := by
    intro j' hst hfin hterm
    have hnr : isRunningJob j' = false := by
      rcases hterm with h' | h' <;> simp [isRunningJob, h']
    have hntq : j'.status ≠ JStatus.queued := by
      rcases hterm with h' | h' <;> rw [h'] <;> simp
    have hlook : ∀ k, (s.jobs.set i j')[k]? = if i = k then some j' else s.jobs[k]? :=
      fun k => getElem?_set_split hilt k
    have hstts : j'.startedAt = some ts := by rw [hst, hts]
    refine ⟨hc, ?_, ?_, ?_, hqs, ?_, ?_, ?_, ?_, ?_, ?_, ?_⟩
    · show s.running - 1 = (s.jobs.set i j').countP isRunningJob
      have hcnt := countP_set_comm isRunningJob s.jobs i j j' hj
      have hrj : isRunningJob j = true := by simp [isRunningJob, hr]
      have hpos : 0 < s.jobs.countP isRunningJob :=
        List.countP_pos_iff.mpr ⟨j, mem_of_getElem?_some hj, hrj⟩
      rw [hrj, hnr] at hcnt
      simp at hcnt
      omega
    · show s.running - 1 ≤ 1
      omega
    · intro k
      show k ∈ s.queue ↔ _
      constructor
      · intro hk
        obtain ⟨jk, hjk, hqk⟩ := (hqm k).mp hk
        have hkne : i ≠ k := fun he => hiq (he ▸ hk)
        exact ⟨jk, by rw [hlook k, if_neg hkne]; exact hjk, hqk⟩
      · rintro ⟨jk, hjk, hqk⟩
        have hjk' : (s.jobs.set i j')[k]? = some jk := hjk
        rw [hlook k] at hjk'
        by_cases hik : i = k
        · rw [if_pos hik] at hjk'
          injection hjk' with e
          rw [← e] at hqk
          exact absurd hqk hntq
        · rw [if_neg hik] at hjk'
          exact (hqm k).mpr ⟨jk, hjk', hqk⟩
    · intro k jk hjk
      have hjk' : (s.jobs.set i j')[k]? = some jk := hjk
      rw [hlook k] at hjk'
      by_cases hik : i = k
      · rw [if_pos hik] at hjk'
        injection hjk' with e
        subst e
        exact ⟨fun _ => hntq, fun _ => ⟨ts, hstts⟩⟩
      · rw [if_neg hik] at hjk'
        exact hsi k jk hjk'
    · intro k jk hjk
      have hjk' : (s.jobs.set i j')[k]? = some jk := hjk
      rw [hlook k] at hjk'
      by_cases hik : i = k
      · rw [if_pos hik] at hjk'
        injection hjk' with e
        subst e
        exact ⟨fun _ => hterm, fun _ => ⟨s.clock, hfin⟩⟩
      · rw [if_neg hik] at hjk'
        exact hfi k jk hjk'
    · intro k jk t hjk ht
      show t < s.clock + 1
      have hjk' : (s.jobs.set i j')[k]? = some jk := hjk
      rw [hlook k] at hjk'
      by_cases hik : i = k
      · rw [if_pos hik] at hjk'
        injection hjk' with e
        subst e
        rw [hstts] at ht
        injection ht with ht
        have := hsl i j ts hj hts
        omega
      · rw [if_neg hik] at hjk'
        have := hsl k jk t hjk' ht
        omega
    · intro k jk t hjk ht
      show t < s.clock + 1
      have hjk' : (s.jobs.set i j')[k]? = some jk := hjk
      rw [hlook k] at hjk'
      by_cases hik : i = k
      · rw [if_pos hik] at hjk'
        injection hjk' with e
        subst e
        rw [hfin] at ht
        injection ht with ht
        omega
      · rw [if_neg hik] at hjk'
        have := hfl k jk t hjk' ht
        omega
    · intro k jk ts0 tf hjk hts0 htf
      have hjk' : (s.jobs.set i j')[k]? = some jk := hjk
      rw [hlook k] at hjk'
      by_cases hik : i = k
      · rw [if_pos hik] at hjk'
        injection hjk' with e
        subst e
        rw [hstts] at hts0
        injection hts0 with hts0
        rw [hfin] at htf
        injection htf with htf
        have := hsl i j ts hj hts
        omega
      · rw [if_neg hik] at hjk'
        exact hsf k jk ts0 tf hjk' hts0 htf
    · intro i1 i2 j1 j2 t2 h1 h2 h12 hst2
      have h1' : (s.jobs.set i j')[i1]? = some j1 := h1
      have h2' : (s.jobs.set i j')[i2]? = some j2 := h2
      rw [hlook i1] at h1'
      rw [hlook i2] at h2'
      by_cases hi1 : i = i1 <;> by_cases hi2 : i = i2
      · omega
      · rw [if_pos hi1] at h1'
        rw [if_neg hi2] at h2'
        injection h1' with e
        subst e
        obtain ⟨t1, hjt1, hlt1⟩ := hso i i2 j j2 t2 hj h2' (hi1 ▸ h12) hst2
        rw [hts] at hjt1
        injection hjt1 with hjt1
        exact ⟨ts, hstts, by omega⟩
      · rw [if_neg hi1] at h1'
        rw [if_pos hi2] at h2'
        injection h2' with e
        subst e
        have ht2 : j.startedAt = some t2 := by rw [← hst]; exact hst2
        exact hso i1 i j1 j t2 h1' hj (hi2 ▸ h12) ht2
      · rw [if_neg hi1] at h1'
        rw [if_neg hi2] at h2'
        exact hso i1 i2 j1 j2 t2 h1' h2' h12 hst2
    · intro i1 i2 j1 j2 t2 h1 h2 h12 hst2
      have h1' : (s.jobs.set i j')[i1]? = some j1 := h1
      have h2' : (s.jobs.set i j')[i2]? = some j2 := h2
      rw [hlook i1] at h1'
      rw [hlook i2] at h2'
      by_cases hi1 : i = i1 <;> by_cases hi2 : i = i2
      · omega
      · rw [if_pos hi1] at h1'
        rw [if_neg hi2] at h2'
        obtain ⟨f1, hf1, _⟩ := hpf i i2 j j2 t2 hj h2' (hi1 ▸ h12) hst2
        rw [hjfn] at hf1
        exact absurd hf1 (by simp)
      · rw [if_neg hi1] at h1'
        rw [if_pos hi2] at h2'
        injection h2' with e
        subst e
        have ht2 : j.startedAt = some t2 := by rw [← hst]; exact hst2
        exact hpf i1 i j1 j t2 h1' hj (hi2 ▸ h12) ht2
      · rw [if_neg hi1] at h1'
        rw [if_neg hi2] at h2'
        exact hpf i1 i2 j1 j2 t2 h1' h2' h12 hst2
  cases out with
  | ok v =>
    have hcs : completeJob s i (.ok v) =
        { s with jobs := s.jobs.set i { j with status := .succeeded, result := some v, finishedAt := some s.clock }, clock := s.clock + 1, running := s.running - 1 } := by
      unfold completeJob
      rw [hj]
    rw [hcs]
    exact main _ rfl rfl (Or.inl rfl)
  | error m =>
    have hcs : completeJob s i (.error m) =
        { s with jobs := s.jobs.set i { j with status := .failed, error := some (jsErrMsg m), finishedAt := some s.clock }, clock := s.clock + 1, running := s.running - 1 } := by
      unfold completeJob
      rw [hj]
    rw [hcs]
    exact main _ rfl rfl (Or.inr rfl)

/-- Starting the head job of the queue inside `_drain` (possible only with a
free concurrency slot, i.e. `running = 0` at concurrency 1) preserves the
invariant. -/
theorem qinv_start (s : QState) (h : QInv s) (i : Nat) (rest : List Nat) (j : Job)
    (hq : s.queue = i :: rest) (hj : s.jobs[i]? = some j)
    (hcap : s.running < s.concurrency) : QInv (startJob s i rest j) := by
  obtain ⟨hc, hre, hrl, hqm, hqs, hsi, hfi, hsl, hfl, hsf, hso, hpf⟩ := h
  have hilt : i < s.jobs.length := getElem?_some_lt hj
  have hjq : j.status = JStatus.queued := by
    obtain ⟨j0, hj0, hq0⟩ := (hqm i).mp (by rw [hq]; exact List.mem_cons_self i rest)
    rw [hj] at hj0
    injection hj0 with e
    rw [← e] at hq0
    exact hq0
  have hrun0 : s.running = 0 := by
    rw [hc] at hcap
    omega
  have hcnt0 : s.jobs.countP isRunningJob = 0 := by omega
  have hnorun : ∀ (k : Nat) (jk : Job), s.jobs[k]? = some jk → isRunningJob jk = false := by
    intro k jk hjk
    have hnp := List.countP_eq_zero.mp hcnt0 jk (mem_of_getElem?_some hjk)
    cases hb : isRunningJob jk
    · rfl
    · exact absurd hb hnp
  have hqp : (i :: rest).Pairwise (· < ·) := hq ▸ hqs
  have hirest : ∀ k ∈ rest, i < k := (List.pairwise_cons.mp hqp).1
  have hrestp : rest.Pairwise (· < ·) := (List.pairwise_cons.mp hqp).2
  have hnotrest : i ∉ rest := fun hin => absurd (hirest i hin) (lt_irrefl i)
  have hjst : j.startedAt = none :=
    option_eq_none_of_not_ex (fun he => absurd hjq ((hsi i j hj).mp he))
  have hjfn : j.finishedAt = none := by
    apply option_eq_none_of_not_ex
    rintro ⟨t, ht⟩
    have hd := (hfi i j hj).mp ⟨t, ht⟩
    rw [hjq] at hd
    rcases hd with h' | h' <;> exact JStatus.noConfusion h'
  set j1 : Job := { j with status := JStatus.running, startedAt := some s.clock }
    with hj1def
  have hjobs : (startJob s i rest j).jobs = s.jobs.set i j1 := rfl
  have hqueue2 : (startJob s i rest j).queue = rest := rfl
  have hclock : (startJob s i rest j).clock = s.clock + 1 := rfl
  have hrun : (startJob s i rest j).running = s.running + 1 := rfl
  have hconc : (startJob s i rest j).concurrency = s.concurrency := rfl
  have hlook : ∀ k, (s.jobs.set i j1)[k]? = if i = k then some j1 else s.jobs[k]? :=
    fun k => getElem?_set_split hilt k
  have hj1s : j1.status = JStatus.running := rfl
  have hj1st : j1.startedAt = some s.clock := rfl
  have hj1fn : j1.finishedAt = j.finishedAt := rfl
  refine ⟨?_, ?_, ?_, ?_, ?_, ?_, ?_, ?_, ?_, ?_, ?_, ?_⟩
  · rw [hconc]
    exact hc
  · rw [hrun, hjobs]
    have hcnt := countP_set_comm isRunningJob s.jobs i j j1 hj
    have hrj : isRunningJob j = false := by simp [isRunningJob, hjq]
    have hrj1 : isRunningJob j1 = true := rfl
    rw [hrj, hrj1] at hcnt
    simp at hcnt
    omega
  · rw [hrun]
    omega
  · intro k
    rw [hqueue2, hjobs]
    constructor
    · intro hk
      have hkq : k ∈ s.queue := by rw [hq]; exact List.mem_cons_of_mem i hk
      obtain ⟨jk, hjk, hqk⟩ := (hqm k).mp hkq
      have hkne : i ≠ k := fun he => hnotrest (he ▸ hk)
      exact ⟨jk, by rw [hlook k, if_neg hkne]; exact hjk, hqk⟩
    · rintro ⟨jk, hjk, hqk⟩
      rw [hlook k] at hjk
      by_cases hik : i = k
      · rw [if_pos hik] at hjk
        injection hjk with e
        rw [← e, hj1s] at hqk
        exact JStatus.noConfusion hqk
      · rw [if_neg hik] at hjk
        have hkq := (hqm k).mpr ⟨jk, hjk, hqk⟩
        rw [hq] at hkq
        rcases List.mem_cons.mp hkq with he | hm
        · exact absurd he.symm hik
        · exact hm
  · rw [hqueue2]
    exact hrestp
  · intro k jk hjk
    have hjk' : (s.jobs.set i j1)[k]? = some jk := hjk
    rw [hlook k] at hjk'
    by_cases hik : i = k
    · rw [if_pos hik] at hjk'
      injection hjk' with e
      subst e
      refine ⟨fun _ => ?_, fun _ => ⟨s.clock, hj1st⟩⟩
      rw [hj1s]
      simp
    · rw [if_neg hik] at hjk'
      exact hsi k jk hjk'
  · intro k jk hjk
    have hjk' : (s.jobs.set i j1)[k]? = some jk := hjk
    rw [hlook k] at hjk'
    by_cases hik : i = k
    · rw [if_pos hik] at hjk'
      injection hjk' with e
      subst e
      constructor
      · rintro ⟨t, ht⟩
        rw [hj1fn, hjfn] at ht
        exact absurd ht (by simp)
      · intro hd
        rw [hj1s] at hd
        rcases hd with h' | h' <;> exact JStatus.noConfusion h'
    · rw [if_neg hik] at hjk'
      exact hfi k jk hjk'
  · intro k jk t hjk ht
    show t < s.clock + 1
    have hjk' : (s.jobs.set i j1)[k]? = some jk := hjk
    rw [hlook k] at hjk'
    by_cases hik : i = k
    · rw [if_pos hik] at hjk'
      injection hjk' with e
      subst e
      rw [hj1st] at ht
      injection ht with ht
      omega
    · rw [if_neg hik] at hjk'
      have := hsl k jk t hjk' ht
      omega
  · intro k jk t hjk ht
    show t < s.clock + 1
    have hjk' : (s.jobs.set i j1)[k]? = some jk := hjk
    rw [hlook k] at hjk'
    by_cases hik : i = k
    · rw [if_pos hik] at hjk'
      injection hjk' with e
      subst e
      rw [hj1fn, hjfn] at ht
      exact absurd ht (by simp)
    · rw [if_neg hik] at hjk'
      have := hfl k jk t hjk' ht
      omega
  · intro k jk ts tf hjk hts htf
    have hjk' : (s.jobs.set i j1)[k]? = some jk := hjk
    rw [hlook k] at hjk'
    by_cases hik : i = k
    · rw [if_pos hik] at hjk'
      injection hjk' with e
      subst e
      rw [hj1fn, hjfn] at htf
      exact absurd htf (by simp)
    · rw [if_neg hik] at hjk'
      exact hsf k jk ts tf hjk' hts htf
  · intro i1 i2 j1b j2 t2 h1 h2 h12 hst2
    have h1' : (s.jobs.set i j1)[i1]? = some j1b := h1
    have h2' : (s.jobs.set i j1)[i2]? = some j2 := h2
    rw [hlook i1] at h1'
    rw [hlook i2] at h2'
    by_cases hi1 : i = i1 <;> by_cases hi2 : i = i2
    · omega
    · subst hi1
      rw [if_pos rfl] at h1'
      rw [if_neg hi2] at h2'
      obtain ⟨t1, hjt1, _⟩ := hso i i2 j j2 t2 hj h2' h12 hst2
      rw [hjst] at hjt1
      exact absurd hjt1 (by simp)
    · subst hi2
      rw [if_neg hi1] at h1'
      rw [if_pos rfl] at h2'
      injection h2' with e
      subst e
      have ht2 : (some s.clock : Option Nat) = some t2 := by rw [← hj1st]; exact hst2
      injection ht2 with ht2
      have hni1q : i1 ∉ s.queue := by
        intro hin
        rw [hq] at hin
        rcases List.mem_cons.mp hin with he | hm
        · exact hi1 he.symm
        · exact absurd (hirest i1 hm) (by omega)
      have hnq : j1b.status ≠ JStatus.queued :=
        fun hq0 => hni1q ((hqm i1).mpr ⟨j1b, h1', hq0⟩)
      obtain ⟨t1, ht1⟩ := (hsi i1 j1b h1').mpr hnq
      have := hsl i1 j1b t1 h1' ht1
      exact ⟨t1, ht1, by omega⟩
    · rw [if_neg hi1] at h1'
      rw [if_neg hi2] at h2'
      exact hso i1 i2 j1b j2 t2 h1' h2' h12 hst2
  · intro i1 i2 j1b j2 t2 h1 h2 h12 hst2
    have h1' : (s.jobs.set i j1)[i1]? = some j1b := h1
    have h2' : (s.jobs.set i j1)[i2]? = some j2 := h2
    rw [hlook i1] at h1'
    rw [hlook i2] at h2'
    by_cases hi1 : i = i1 <;> by_cases hi2 : i = i2
    · omega
    · subst hi1
      rw [if_pos rfl] at h1'
      rw [if_neg hi2] at h2'
      obtain ⟨f1, hf1, _⟩ := hpf i i2 j j2 t2 hj h2' h12 hst2
      rw [hjfn] at hf1
      exact absurd hf1 (by simp)
    · subst hi2
      rw [if_neg hi1] at h1'
      rw [if_pos rfl] at h2'
      injection h2' with e
      subst e
      have ht2 : (some s.clock : Option Nat) = some t2 := by rw [← hj1st]; exact hst2
      injection ht2 with ht2
      have hni1q : i1 ∉ s.queue := by
        intro hin
        rw [hq] at hin
        rcases List.mem_cons.mp hin with he | hm
        · exact hi1 he.symm
        · exact absurd (hirest i1 hm) (by omega)
      have hnq : j1b.status ≠ JStatus.queued :=
        fun hq0 => hni1q ((hqm i1).mpr ⟨j1b, h1', hq0⟩)
      have hnr : isRunningJob j1b = false := hnorun i1 j1b h1'
      have hterm : j1b.status = JStatus.succeeded ∨ j1b.status = JStatus.failed := by
        cases hst0 : j1b.status with
        | queued => exact absurd hst0 hnq
        | running => simp [isRunningJob, hst0] at hnr
        | succeeded => exact Or.inl rfl
        | failed => exact Or.inr rfl
      obtain ⟨f1, hf1⟩ := (hfi i1 j1b h1').mpr hterm
      have := hfl i1 j1b f1 h1' hf1
      exact ⟨f1, hf1, by omega⟩
    · rw [if_neg hi1] at h1'
      rw [if_neg hi2] at h2'
      exact hpf i1 i2 j1b j2 t2 h1' h2' h12 hst2

/-- The synchronous `_drain` prefix preserves the invariant. -/
theorem qinv_drain (s : QState) (h : QInv s) : QInv (drainStep s) := by
  unfold drainStep
  by_cases hcap : s.running ≥ s.concurrency
  · rw [if_pos hcap]
    exact h
  · rw [if_neg hcap]
    cases hq : s.queue with
    | nil => exact h
    | cons i rest =>
      obtain ⟨j, hj, hjq⟩ := (h.queueMem i).mp (by rw [hq]; exact List.mem_cons_self i rest)
      dsimp only
      rw [hj]
      dsimp only
      have hs1 : QInv (startJob s i rest j) := qinv_start s h i rest j hq hj (by omega)
      cases hh : j.handler with
      | pending => exact hs1
      | throws m =>
        have hj1 : (startJob s i rest j).jobs[i]? =
            some { j with status := JStatus.running, startedAt := some s.clock } := by
          show (s.jobs.set i _)[i]? = _
          rw [getElem?_set_split (getElem?_some_lt hj) i, if_pos rfl]
        exact qinv_complete (startJob s i rest j) hs1 i _ (.error m) hj1 rfl

/-- Settling a promise preserves the invariant. -/
theorem qinv_settle (s : QState) (h : QInv s) (i : Nat) (out : Except String String) :
    QInv (settleStep s i out) := by
  unfold settleStep
  cases hj : s.jobs[i]? with
  | none => exact h
  | some j =>
    dsimp only
    by_cases hr : j.status = JStatus.running
    · rw [if_pos hr]
      exact qinv_complete s h i j out hj hr
    · rw [if_neg hr]
      exact h

/-- Every event preserves the invariant. -/
theorem qinv_step (s : QState) (h : QInv s) (e : QEvent) : QInv (stepEvent s e) := by
  cases e with
  | create hb inp => exact qinv_drain _ (qinv_append s h hb inp)
  | settle i out => exact qinv_settle s h i out
  | drain => exact qinv_drain s h

/-- Every state reachable from the exported singleton queue satisfies the
invariant. -/
theorem qinv_run (evs : List QEvent) : QInv (runEvents evs) := by
  have hgen : ∀ (l : List QEvent) (s : QState), QInv s → QInv (l.foldl stepEvent s) := by
    intro l
    induction l with
    | nil => exact fun s hs => hs
    | cons e es ih => exact fun s hs => ih _ (qinv_step s hs e)
  exact hgen evs initState qinv_init

/-- Claim C1: with the scheduler's default concurrency bound of 1, in every
state reachable by any sequence of job creations, promise settlements and
drain ticks, (a) at most one job is in status `running`, (b) jobs start in
creation (FIFO) order — `startedAt` stamps are monotone in job id — and
(c) execution intervals never overlap: a later-created job starts strictly
after every earlier-created started job has finished. -/
theorem c1_fifo_serialization (evs : List QEvent) :
    ((runEvents evs).jobs.filter isRunningJob).length ≤ 1 ∧
    (∀ (i1 i2 : Nat) (j1 j2 : Job) (t1 t2 : Nat),
      (runEvents evs).jobs[i1]? = some j1 → (runEvents evs).jobs[i2]? = some j2 →
      i1 < i2 → j1.startedAt = some t1 → j2.startedAt = some t2 → t1 ≤ t2) ∧
    (∀ (i1 i2 : Nat) (j1 j2 : Job) (t2 : Nat),
      (runEvents evs).jobs[i1]? = some j1 → (runEvents evs).jobs[i2]? = some j2 →
      i1 < i2 → j2.startedAt = some t2 →
      ∃ f1, j1.finishedAt = some f1 ∧ f1 < t2) := by
  have h := qinv_run evs
  refine ⟨?_, ?_, ?_⟩
  · rw [← List.countP_eq_length_filter]
    have h1 := h.runEq
    have h2 := h.runLe
    omega
  · intro i1 i2 j1 j2 t1 t2 h1 h2 hlt hs1 hs2
    obtain ⟨t1', ht1', hlt'⟩ := h.startOrder i1 i2 j1 j2 t2 h1 h2 hlt hs2
    rw [hs1] at ht1'
    injection ht1' with he
    omega
  · exact fun i1 i2 j1 j2 t2 h1 h2 hlt hs2 => h.priorFin i1 i2 j1 j2 t2 h1 h2 hlt hs2

/-- `startJob` stores the started job at its own id. -/
theorem startJob_self_lookup (s : QState) (i : Nat) (rest : List Nat) (j : Job)
    (hilt : i < s.jobs.length) :
    (startJob s i rest j).jobs[i]? =
      some { j with status := JStatus.running, startedAt := some s.clock } := by
  simp only [startJob]
  rw [getElem?_set_split hilt i, if_pos rfl]

/-- `startJob` leaves every other job record unchanged. -/
theorem startJob_other_lookup (s : QState) (i : Nat) (rest : List Nat) (j : Job)
    (hilt : i < s.jobs.length) (k : Nat) (hne : i ≠ k) :
    (startJob s i rest j).jobs[k]? = s.jobs[k]? := by
  simp only [startJob]
  rw [getElem?_set_split hilt k, if_neg hne]

/-- `startJob` preserves the number of job records. -/
theorem startJob_length (s : QState) (i : Nat) (rest : List Nat) (j : Job) :
    (startJob s i rest j).jobs.length = s.jobs.length := by
  simp only [startJob]
  rw [List.length_set]

/-- Claim C4: a work function that throws synchronously is caught — the
drain tick that starts it leaves the job `failed` with a non-empty,
human-readable `error.message` (never a raw exception object), and the next
drain tick (the `setImmediate` rescheduling) starts the next queued job. -/
theorem c4_handler_throw_contained (evs : List QEvent) (i k : Nat) (m : String)
    (rest : List Nat)
    (hrun : (runEvents evs).running = 0)
    (hq : (runEvents evs).queue = i :: k :: rest)
    (hhi : ((runEvents evs).jobs[i]?).map Job.handler = some (HBehavior.throws m))
    (hhk : ((runEvents evs).jobs[k]?).map Job.handler = some HBehavior.pending) :
    ((drainStep (runEvents evs)).jobs[i]?).map Job.status = some JStatus.failed ∧
    ((drainStep (runEvents evs)).jobs[i]?).map Job.error = some (some (jsErrMsg m)) ∧
    jsErrMsg m ≠ "" ∧
    ((drainStep (drainStep (runEvents evs))).jobs[k]?).map Job.status =
      some JStatus.running := by
  have h := qinv_run evs
  set s := runEvents evs with hsdef
  obtain ⟨ji, hji, hjiq⟩ := (h.queueMem i).mp
    (by rw [hq]; exact List.mem_cons_self i (k :: rest))
  obtain ⟨jk, hjk, hjkq⟩ := (h.queueMem k).mp
    (by rw [hq]; exact List.mem_cons_of_mem i (List.mem_cons_self k rest))
  have hjih : ji.handler = HBehavior.throws m := by
    rw [hji] at hhi
    simpa using hhi
  have hjkh : jk.handler = HBehavior.pending := by
    rw [hjk] at hhk
    simpa using hhk
  have hik : i < k := by
    have hp : (i :: k :: rest).Pairwise (· < ·) := hq ▸ h.queueSorted
    exact (List.pairwise_cons.mp hp).1 k (List.mem_cons_self k rest)
  have hilt : i < s.jobs.length := getElem?_some_lt hji
  have hklt : k < s.jobs.length := getElem?_some_lt hjk
  have hcap : ¬ s.running ≥ s.concurrency := by
    rw [hrun, h.conc]
    omega
  have hd1 : drainStep s = completeJob (startJob s i (k :: rest) ji) i (.error m) := by
    unfold drainStep
    rw [if_neg hcap, hq]
    dsimp only
    rw [hji]
    dsimp only
    rw [hjih]
  have hs1i : (startJob s i (k :: rest) ji).jobs[i]? =
      some { ji with status := JStatus.running, startedAt := some s.clock } :=
    startJob_self_lookup s i (k :: rest) ji hilt
  have hilt1 : i < (startJob s i (k :: rest) ji).jobs.length := by
    rw [startJob_length]
    exact hilt
  have hklt1 : k < (startJob s i (k :: rest) ji).jobs.length := by
    rw [startJob_length]
    exact hklt
  have hc2jobs : (completeJob (startJob s i (k :: rest) ji) i (.error m)).jobs =
      (startJob s i (k :: rest) ji).jobs.set i
        { status := JStatus.failed, createdAt := ji.createdAt,
          startedAt := some s.clock, finishedAt := some (s.clock + 1),
          handler := ji.handler, input := ji.input, result := ji.result,
          error := some (jsErrMsg m) } := by
    unfold completeJob
    rw [hs1i]
    rfl
  have hc2queue : (completeJob (startJob s i (k :: rest) ji) i (.error m)).queue =
      k :: rest := by
    unfold completeJob
    rw [hs1i]
    rfl
  have hc2run : (completeJob (startJob s i (k :: rest) ji) i (.error m)).running = 0 := by
    unfold completeJob
    rw [hs1i]
    show s.running + 1 - 1 = 0
    omega
  have hc2conc : (completeJob (startJob s i (k :: rest) ji) i (.error m)).concurrency =
      s.concurrency := by
    unfold completeJob
    rw [hs1i]
    rfl
  have hc2i : (completeJob (startJob s i (k :: rest) ji) i (.error m)).jobs[i]? =
      some { status := JStatus.failed, createdAt := ji.createdAt,
             startedAt := some s.clock, finishedAt := some (s.clock + 1),
             handler := ji.handler, input := ji.input, result := ji.result,
             error := some (jsErrMsg m) } := by
    rw [hc2jobs, getElem?_set_split hilt1 i, if_pos rfl]
  have hc2k : (completeJob (startJob s i (k :: rest) ji) i (.error m)).jobs[k]? =
      some jk := by
    rw [hc2jobs, getElem?_set_split hilt1 k, if_neg (by omega)]
    rw [startJob_other_lookup s i (k :: rest) ji hilt k (by omega)]
    exact hjk
  have hklt2 : k < (completeJob (startJob s i (k :: rest) ji) i (.error m)).jobs.length := by
    rw [hc2jobs, List.length_set, startJob_length]
    exact hklt
  refine ⟨?_, ?_, ?_, ?_⟩
  · rw [hd1, hc2i]
    rfl
  · rw [hd1, hc2i]
    rfl
  · by_cases hm : m = "" <;> simp [jsErrMsg, hm]
  · rw [hd1]
    have hcap2 : ¬ (completeJob (startJob s i (k :: rest) ji) i (.error m)).running ≥
        (completeJob (startJob s i (k :: rest) ji) i (.error m)).concurrency := by
      rw [hc2run, hc2conc, h.conc]
      omega
    have hd3 : drainStep (completeJob (startJob s i (k :: rest) ji) i (.error m)) =
        startJob (completeJob (startJob s i (k :: rest) ji) i (.error m)) k rest jk := by
      unfold drainStep
      rw [if_neg hcap2, hc2queue]
      dsimp only
      rw [hc2k]
      dsimp only
      rw [hjkh]
    rw [hd3, startJob_self_lookup _ k rest jk hklt2]
    rfl

/-- Witness for C4 on a concrete trace: while job 0 is in flight, a throwing
job 1 and a pending job 2 are created; after job 0 settles, the next drain
tick fails job 1 with its message and the following one starts job 2. -/
theorem c4_handler_throw_contained_witness :
    ((drainStep (runEvents c4DemoEvs)).jobs[1]?).map Job.status = some JStatus.failed ∧
    ((drainStep (runEvents c4DemoEvs)).jobs[1]?).map Job.error =
      some (some (jsErrMsg "boom")) ∧
    jsErrMsg "boom" ≠ "" ∧
    ((drainStep (drainStep (runEvents c4DemoEvs))).jobs[2]?).map Job.status =
      some JStatus.running :=
  c4_handler_throw_contained c4DemoEvs 1 2 "boom" [] rfl rfl rfl rfl

/-- Witness for C1 on a concrete trace: two jobs created back to back; job 0
runs over [1, 3] and job 1 starts at 4, after job 0 finished. -/
theorem c1_fifo_serialization_witness :
    ((runEvents c1DemoEvs).jobs.filter isRunningJob).length ≤ 1 ∧
    (1 : Nat) ≤ 4 ∧
    (∃ f1, Job.finishedAt { status := JStatus.succeeded, createdAt := 0, startedAt := some 1, finishedAt := some 3, handler := HBehavior.pending, input := "a", result := some "r", error := none } = some f1 ∧ f1 < 4) :=
  ⟨(c1_fifo_serialization c1DemoEvs).1,
   (c1_fifo_serialization c1DemoEvs).2.1 0 1
     { status := JStatus.succeeded, createdAt := 0, startedAt := some 1, finishedAt := some 3, handler := HBehavior.pending, input := "a", result := some "r", error := none }
     { status := JStatus.running, createdAt := 2, startedAt := some 4, finishedAt := none, handler := HBehavior.pending, input := "b", result := none, error := none }
     1 4 rfl rfl (by decide) rfl rfl,
   (c1_fifo_serialization c1DemoEvs).2.2 0 1
     { status := JStatus.succeeded, createdAt := 0, startedAt := some 1, finishedAt := some 3, handler := HBehavior.pending, input := "a", result := some "r", error := none }
     { status := JStatus.running, createdAt := 2, startedAt := some 4, finishedAt := none, handler := HBehavior.pending, input := "b", result := none, error := none }
     4 rfl rfl (by decide) rfl⟩

/-- `completeJob` preserves the number of job records. -/
theorem completeJob_length (s : QState) (i : Nat) (out : Except String String) :
    (completeJob s i out).jobs.length = s.jobs.length := by
  unfold completeJob
  cases hj : s.jobs[i]? with
  | none => rfl
  | some j => cases out <;> simp [List.length_set]

/-- The `_drain` prefix preserves the number of job records. -/
theorem drainStep_length (s : QState) : (drainStep s).jobs.length = s.jobs.length := by
  unfold drainStep
  by_cases hcap : s.running ≥ s.concurrency
  · rw [if_pos hcap]
  · rw [if_neg hcap]
    cases hq : s.queue with
    | nil => rfl
    | cons i rest =>
      dsimp only
      cases hj : s.jobs[i]? with
      | none => rfl
      | some j =>
        dsimp only
        cases hh : j.handler with
        | pending => exact startJob_length s i rest j
        | throws m => rw [completeJob_length, startJob_length]

/-- Claim C3, counterexample: on the idle singleton queue, `createJob` with a
valid (pending, asynchronous) handler returns a job whose status is already
`running`, not `queued` — `this._drain()` is invoked synchronously and runs
up to its first await before `createJob` returns. -/
theorem c3_createJob_counterexample :
    c3Status = some JStatus.running ∧ JStatus.running ≠ JStatus.queued :=
  ⟨rfl, by decide⟩

/-- Claim C3 (amended): `createJob` fails with the invalid-handler error when
the handler is not invokable; otherwise it records the new job and returns
it, but the drain loop runs synchronously inside the call: the returned
job's status is `queued` only when all concurrency slots are busy, and with
a free slot and an empty queue a pending handler's job is already `running`
when `createJob` returns. -/
theorem c3_createJob_amended (s : QState) (h : Option HBehavior) (inp : String) :
    (h = none → createJob s h inp = .error "Job handler must be a function") ∧
    (∀ hb, h = some hb →
      createJob s h inp = .ok (createJobStep s hb inp, s.jobs.length) ∧
      (createJobStep s hb inp).jobs.length = s.jobs.length + 1 ∧
      (s.running ≥ s.concurrency →
        ((createJobStep s hb inp).jobs[s.jobs.length]?).map Job.status =
          some JStatus.queued) ∧
      (s.running < s.concurrency → s.queue = [] → hb = HBehavior.pending →
        ((createJobStep s hb inp).jobs[s.jobs.length]?).map Job.status =
          some JStatus.running)) := by
  constructor
  · intro he
    subst he
    rfl
  · intro hb he
    subst he
    refine ⟨rfl, ?_, ?_, ?_⟩
    · show (drainStep (appendJob s hb inp)).jobs.length = s.jobs.length + 1
      rw [drainStep_length]
      show (s.jobs ++ [({ status := .queued, createdAt := s.clock, handler := hb, input := inp } : Job)]).length = s.jobs.length + 1
      rw [List.length_append]
      rfl
    · intro hbusy
      have hbusy2 : (appendJob s hb inp).running ≥ (appendJob s hb inp).concurrency := hbusy
      have hd : drainStep (appendJob s hb inp) = appendJob s hb inp := by
        unfold drainStep
        rw [if_pos hbusy2]
      unfold createJobStep
      rw [hd]
      have hnj : (appendJob s hb inp).jobs[s.jobs.length]? =
          some { status := .queued, createdAt := s.clock, handler := hb, input := inp } :=
        List.getElem?_concat_length s.jobs _
      rw [hnj]
      rfl
    · intro hidle hqe hpend
      subst hpend
      have hql : (appendJob s HBehavior.pending inp).queue = [s.jobs.length] := by
        show s.queue ++ [s.jobs.length] = _
        rw [hqe]
        rfl
      have hjl : (appendJob s HBehavior.pending inp).jobs[s.jobs.length]? =
          some { status := .queued, createdAt := s.clock, handler := HBehavior.pending, input := inp } :=
        List.getElem?_concat_length s.jobs _
      have hcap : ¬ (appendJob s HBehavior.pending inp).running ≥
          (appendJob s HBehavior.pending inp).concurrency := by
        show ¬ s.running ≥ s.concurrency
        omega
      have hd : drainStep (appendJob s HBehavior.pending inp) =
          startJob (appendJob s HBehavior.pending inp) s.jobs.length []
            { status := .queued, createdAt := s.clock, handler := HBehavior.pending, input := inp } := by
        unfold drainStep
        rw [if_neg hcap, hql]
        dsimp only
        rw [hjl]
      unfold createJobStep
      rw [hd]
      have hlen : s.jobs.length < (appendJob s HBehavior.pending inp).jobs.length := by
        show s.jobs.length < (s.jobs ++ [({ status := .queued, createdAt := s.clock, handler := HBehavior.pending, input := inp } : Job)]).length
        rw [List.length_append]
        simp
      rw [startJob_self_lookup _ _ [] _ hlen]
      rfl

/-- Witness for the amended C3: a non-invokable handler is rejected, and on
the idle singleton queue a pending handler's job is `running` on return. -/
theorem c3_createJob_amended_witness :
    createJob initState none "x" = .error "Job handler must be a function" ∧
    ((createJobStep initState HBehavior.pending "in").jobs[0]?).map Job.status =
      some JStatus.running :=
  ⟨(c3_createJob_amended initState none "x").1 rfl,
   ((c3_createJob_amended initState (some HBehavior.pending) "in").2 HBehavior.pending
      rfl).2.2.2 (by decide) rfl rfl⟩
